import Mathlib

/-!
Shallow embedding of the domino crate (src/lib.rs): the
command_queue::CommandList nested-frame queue, and the mvc dispatch
machinery built on top of it.

Embedding conventions: a VecDeque frame becomes a `List` whose head is the
front of the deque.  The `Vec` of stashed frames becomes a `List` stored in
REVERSE order of the Rust vector: the head of `stashed_frames` is the most
recently stashed frame (the back of the Rust `Vec`, where `start_new_frame`
pushes and `maybe_pop_frame` pops), and the last element is the earliest
stashed (bottom) frame (`self.stashed_frames.get_mut(0)` in Rust, the target
of `add_command_to_bottom_frame`).  Methods taking `&mut self` become
functions returning the updated structure (paired with the Rust return value
when there is one); methods taking `&self` return their Rust result and,
where a system is threaded through, the unchanged receiver.  The one
possibly-divergent loop (`exec_pending_commands`) takes explicit fuel.
-/

structure CommandList (T : Type) where
  current_frame : List T
  stashed_frames : List (List T)
deriving Repr, DecidableEq

namespace CommandList

variable {T : Type}

/-- Embeds `CommandList::new`. -/
def new (T : Type) : CommandList T := ⟨[], []⟩

/-- Embeds `CommandList::pop_command`: `self.current_frame.pop_front()`. -/
def pop_command (s : CommandList T) : Option T × CommandList T :=
  match s.current_frame with
  | [] => (none, s)
  | c :: cs => (some c, ⟨cs, s.stashed_frames⟩)

/-- Embeds `CommandList::maybe_pop_frame`: if the current frame is non-empty,
return false; otherwise pop the most recently stashed frame (the head of our
reversed stash list, the back of the Rust `Vec`), install it as the current
frame and return true; if no stashed frame exists, return false. -/
def maybe_pop_frame (s : CommandList T) : Bool × CommandList T :=
  if s.current_frame.isEmpty then
    match s.stashed_frames with
    | old_frame :: rest => (true, ⟨old_frame, rest⟩)
    | [] => (false, s)
  else
    (false, s)

/-- Iterations of the Rust `loop` in `pop_command_and_maybe_frame` once the
current frame is empty: restore the most recently stashed frame, pop its
front if possible, otherwise keep restoring. -/
def pop_frames : List (List T) → Option T × CommandList T
  | [] => (none, ⟨[], []⟩)
  | f :: rest =>
    match f with
    | c :: cs => (some c, ⟨cs, rest⟩)
    | [] => pop_frames rest

/-- Embeds `CommandList::pop_command_and_maybe_frame`: the Rust `loop` that
pops the front of the current frame and, when the current frame is empty,
restores stashed frames via `maybe_pop_frame` until a command is found or the
stash is exhausted (the restoring iterations are `pop_frames`;
`pop_command_and_maybe_frame_eq_loop` below recovers the literal loop
body). -/
def pop_command_and_maybe_frame (s : CommandList T) : Option T × CommandList T :=
  match s.current_frame with
  | c :: cs => (some c, ⟨cs, s.stashed_frames⟩)
  | [] => pop_frames s.stashed_frames

/-- Embeds `CommandList::push_immediate_command`:
`self.current_frame.push_front(new_command)`. -/
def push_immediate_command (s : CommandList T) (new_command : T) : CommandList T :=
  ⟨new_command :: s.current_frame, s.stashed_frames⟩

/-- Embeds `CommandList::add_command_to_current_frame`:
`self.current_frame.push_back(new_command)`. -/
def add_command_to_current_frame (s : CommandList T) (new_command : T) : CommandList T :=
  ⟨s.current_frame ++ [new_command], s.stashed_frames⟩

/-- Helper for `add_command_to_bottom_frame`: appends to the back of the last
frame of a non-empty list of frames (the bottom frame, `get_mut(0)` in the
Rust `Vec` order). -/
def push_back_last (x : T) : List (List T) → List (List T)
  | [] => []
  | [f] => [f ++ [x]]
  | f :: g :: rest => f :: push_back_last x (g :: rest)

/-- Embeds `CommandList::add_command_to_bottom_frame`:
`self.stashed_frames.get_mut(0).unwrap_or(&mut self.current_frame)` receives
`push_back(new_command)`.  In our reversed stash order, `get_mut(0)` is the
last element of `stashed_frames`. -/
def add_command_to_bottom_frame (s : CommandList T) (new_command : T) : CommandList T :=
  match s.stashed_frames with
  | [] => ⟨s.current_frame ++ [new_command], []⟩
  | f :: rest => ⟨s.current_frame, push_back_last new_command (f :: rest)⟩

/-- Embeds `CommandList::start_new_frame`: swap an empty deque with the
current frame and push the old current frame onto the stash (the head of our
reversed stash list). -/
def start_new_frame (s : CommandList T) : CommandList T :=
  ⟨[], s.current_frame :: s.stashed_frames⟩

/-- Embeds `CommandList::is_empty`:
`self.current_frame.is_empty() && self.stashed_frames.is_empty()`. -/
def is_empty (s : CommandList T) : Bool :=
  s.current_frame.isEmpty && s.stashed_frames.isEmpty

/-- Embeds `CommandList::is_current_frame_empty`. -/
def is_current_frame_empty (s : CommandList T) : Bool :=
  s.current_frame.isEmpty

/-- Embeds `CommandList::is_only_frame`. -/
def is_only_frame (s : CommandList T) : Bool :=
  s.stashed_frames.isEmpty

/-- The full sequence of commands a complete drain through
`pop_command_and_maybe_frame` will yield: the current frame first, then the
stashed frames in LIFO (most recently stashed first) order. -/
def drainSeq (s : CommandList T) : List T :=
  s.current_frame ++ s.stashed_frames.flatten

/-- The bottom frame targeted by `add_command_to_bottom_frame`: the earliest
stashed frame (last of our reversed stash list), or the current frame when no
frame is stashed. -/
def bottomFrame (s : CommandList T) : List T :=
  (s.stashed_frames.getLast?).getD s.current_frame

/-- The concatenation of all frames' contents from the bottom stashed frame
up to the active frame. -/
def contents (s : CommandList T) : List T :=
  s.stashed_frames.reverse.flatten ++ s.current_frame

/-- Fueled repetition of `pop_command_and_maybe_frame`, collecting the
returned commands until the empty result (or until the fuel runs out). -/
def drainFuel : Nat → CommandList T → List T
  | 0, _ => []
  | Nat.succ n, s =>
    match pop_command_and_maybe_frame s with
    | (some c, s') => c :: drainFuel n s'
    | (none, _) => []

/-- The observation sequence of a complete drain: repeatedly call
`pop_command_and_maybe_frame` until the empty result.  `(drainSeq s).length`
steps always suffice (`drainFuel_eq_drainSeq` below), so this fuel choice
realizes the unbounded Rust loop. -/
def drainList (s : CommandList T) : List T :=
  drainFuel (drainSeq s).length s

/-- A scheduling operation from the spec's testable-property clause: the
three insertions plus `start_new_frame`. -/
inductive SchedOp (T : Type) where
  | pushFrontActive (x : T)
  | pushBackActive (x : T)
  | pushBackBottom (x : T)
  | startNewFrame

/-- Interpretation of a scheduling operation by the corresponding
`CommandList` method. -/
def applyOp : SchedOp T → CommandList T → CommandList T
  | SchedOp.pushFrontActive x, s => s.push_immediate_command x
  | SchedOp.pushBackActive x, s => s.add_command_to_current_frame x
  | SchedOp.pushBackBottom x, s => s.add_command_to_bottom_frame x
  | SchedOp.startNewFrame, s => s.start_new_frame

/-- Interpretation of a finite sequence of scheduling operations, applied
left to right. -/
def applyOps (ops : List (SchedOp T)) (s : CommandList T) : CommandList T :=
  ops.foldl (fun t op => applyOp op t) s

end CommandList

namespace mvc

open CommandList

/-- Embeds `mvc::MVCMessage`: the closed tagged union of the five message
shapes that can flow through the system. -/
inductive MVCMessage (MC MN VC CN CC : Type) where
  | ModelCommand (c : MC)
  | ModelUpdateView (n : MN)
  | ViewCommand (c : VC)
  | ControllerManipulatesModel (n : CN)
  | ControllerCommand (c : CC)
deriving Repr, DecidableEq

/-- Embeds `mvc::MVCSystem`: one model, view and controller instance plus one
`CommandList` of pending message envelopes. -/
structure MVCSystem (M V C MC MN VC CN CC : Type) where
  model : M
  view : V
  controller : C
  command_list : CommandList (MVCMessage MC MN VC CN CC)

/-- The `Model`, `View` and `Controller` trait methods the dispatch machinery
calls (Rust resolves them statically from the trait impls; the payload types
are the traits' associated `Command`/`Notification`/`OutputParameter` types).
A `process_command` handler receives a scoped token wrapping `&mut` access to
the whole system, so its effect is embedded as an arbitrary function from the
system (as it stands when the handler is entered) to the updated system.  The
translation hooks are pure, and `sync_output_with_parameter` takes `&self`
and `&M` and mutates only the parameter. -/
structure MVCImpl (M V C MC MN VC CN CC P : Type) where
  model_process_command :
    MVCSystem M V C MC MN VC CN CC → MC → MVCSystem M V C MC MN VC CN CC
  translate_controller_notification : CN → Option MC
  view_process_command :
    MVCSystem M V C MC MN VC CN CC → VC → MVCSystem M V C MC MN VC CN CC
  translate_model_notification : MN → Option VC
  controller_process_command :
    MVCSystem M V C MC MN VC CN CC → CC → MVCSystem M V C MC MN VC CN CC
  sync_output_with_parameter : V → M → P → P

variable {M V C MC MN VC CN CC P X : Type}

/-- Embeds `MVCSystem::new`. -/
def MVCSystem.new (model : M) (view : V) (controller : C) :
    MVCSystem M V C MC MN VC CN CC :=
  ⟨model, view, controller, CommandList.new _⟩

/-- Recursion measure for `exec_immediate_command`: the two notification
variants recurse exactly once into a command variant. -/
def msgRank : MVCMessage MC MN VC CN CC → Nat
  | MVCMessage.ModelUpdateView _ => 1
  | MVCMessage.ControllerManipulatesModel _ => 1
  | _ => 0

/-- Embeds `MVCSystem::exec_immediate_command`: a command variant starts a
new frame and invokes the owning role's `process_command` with a token for
the (updated) system; a notification variant runs the translation hook
synchronously and, when it yields a command, recurses on the resulting
command envelope, and otherwise does nothing further. -/
def exec_immediate_command (impl : MVCImpl M V C MC MN VC CN CC P)
    (sys : MVCSystem M V C MC MN VC CN CC) :
    MVCMessage MC MN VC CN CC → MVCSystem M V C MC MN VC CN CC
  | MVCMessage.ModelCommand model_command =>
    impl.model_process_command
      ⟨sys.model, sys.view, sys.controller, sys.command_list.start_new_frame⟩
      model_command
  | MVCMessage.ModelUpdateView model_notification =>
    match impl.translate_model_notification model_notification with
    | some view_command =>
      exec_immediate_command impl sys (MVCMessage.ViewCommand view_command)
    | none => sys
  | MVCMessage.ViewCommand view_command =>
    impl.view_process_command
      ⟨sys.model, sys.view, sys.controller, sys.command_list.start_new_frame⟩
      view_command
  | MVCMessage.ControllerManipulatesModel controller_notification =>
    match impl.translate_controller_notification controller_notification with
    | some model_command =>
      exec_immediate_command impl sys (MVCMessage.ModelCommand model_command)
    | none => sys
  | MVCMessage.ControllerCommand controller_command =>
    impl.controller_process_command
      ⟨sys.model, sys.view, sys.controller, sys.command_list.start_new_frame⟩
      controller_command
termination_by m => msgRank m
decreasing_by
  all_goals simp [msgRank]

/-- Embeds `MVCSystem::exec_immediate_command_in_new_frame`. -/
def exec_immediate_command_in_new_frame (impl : MVCImpl M V C MC MN VC CN CC P)
    (sys : MVCSystem M V C MC MN VC CN CC) (command : MVCMessage MC MN VC CN CC) :
    MVCSystem M V C MC MN VC CN CC :=
  exec_immediate_command impl
    ⟨sys.model, sys.view, sys.controller, sys.command_list.start_new_frame⟩ command

/-- Embeds `MVCSystem::exec_pending_commands`: the drain loop
`while let Some(command) = self.command_list.pop_command_and_maybe_frame()`.
The Rust loop may diverge when handlers keep scheduling work, so the
embedding takes explicit fuel and returns `none` exactly when the fuel runs
out before the queue reports exhaustion. -/
def exec_pending_commands (impl : MVCImpl M V C MC MN VC CN CC P) :
    Nat → MVCSystem M V C MC MN VC CN CC → Option (MVCSystem M V C MC MN VC CN CC)
  | 0, _ => none
  | Nat.succ fuel, sys =>
    match sys.command_list.pop_command_and_maybe_frame with
    | (some command, cl) =>
      exec_pending_commands impl fuel
        (exec_immediate_command impl ⟨sys.model, sys.view, sys.controller, cl⟩ command)
    | (none, cl) => some ⟨sys.model, sys.view, sys.controller, cl⟩

/-- Embeds `MVCSystem::process_input`: wrap the input (through its
`Into<C::Command>` conversion) as a `ControllerCommand` envelope, append it
to the bottom frame, then drain via `exec_pending_commands`. -/
def process_input (impl : MVCImpl M V C MC MN VC CN CC P) (fuel : Nat)
    (sys : MVCSystem M V C MC MN VC CN CC) (into : X → CC) (input : X) :
    Option (MVCSystem M V C MC MN VC CN CC) :=
  exec_pending_commands impl fuel
    ⟨sys.model, sys.view, sys.controller,
      sys.command_list.add_command_to_bottom_frame
        (MVCMessage.ControllerCommand (into input))⟩

/-- Embeds `MVCSystem::sync_output`: builds the `Default::default()`
parameter and calls the view's output-sync hook with the model.  The Rust
method takes `&self` (a shared borrow), so the system it leaves behind is the
receiver unchanged; the pair's second component is the parameter after the
hook ran. -/
def sync_output (impl : MVCImpl M V C MC MN VC CN CC P) (default_param : P)
    (sys : MVCSystem M V C MC MN VC CN CC) :
    MVCSystem M V C MC MN VC CN CC × P :=
  (sys, impl.sync_output_with_parameter sys.view sys.model default_param)

/-- Embeds `MVCSystem::sync_output_with_parameter` (also a `&self`
receiver). -/
def sync_output_with_parameter (impl : MVCImpl M V C MC MN VC CN CC P)
    (sys : MVCSystem M V C MC MN VC CN CC) (param : P) :
    MVCSystem M V C MC MN VC CN CC × P :=
  (sys, impl.sync_output_with_parameter sys.view sys.model param)

/-- A concrete trait instantiation over `Nat` payloads used to exercise the
generic theorems on closed inputs: handlers leave the system unchanged, the
translation hooks absorb notification 0 and translate any other notification
n to command n, and the output-sync hook returns the parameter unchanged. -/
def natImpl : MVCImpl Nat Nat Nat Nat Nat Nat Nat Nat Nat :=
  ⟨fun sys _ => sys,
   fun n => if n = 0 then none else some n,
   fun sys _ => sys,
   fun n => if n = 0 then none else some n,
   fun sys _ => sys,
   fun _ _ p => p⟩

/-- A concrete system over `Nat` roles with the given command list. -/
def natSystem (cl : CommandList (MVCMessage Nat Nat Nat Nat Nat)) :
    MVCSystem Nat Nat Nat Nat Nat Nat Nat Nat :=
  ⟨0, 0, 0, cl⟩

end mvc

namespace CommandList

variable {T : Type}

/-- The inlined restoring recursion (`pop_frames`) agrees with the literal
Rust loop body phrased through `maybe_pop_frame`: pop the current frame's
front if possible, otherwise restore one frame and continue, stopping when no
frame can be restored. -/
theorem pop_command_and_maybe_frame_eq_loop (s : CommandList T) :
    pop_command_and_maybe_frame s =
      match s.current_frame with
      | c :: cs => (some c, (⟨cs, s.stashed_frames⟩ : CommandList T))
      | [] =>
        if (maybe_pop_frame s).1 then
          pop_command_and_maybe_frame (maybe_pop_frame s).2
        else (none, s) := by
  obtain ⟨cur, st⟩ := s
  cases cur with
  | cons c cs => rfl
  | nil =>
    cases st with
    | nil => rfl
    | cons f rest =>
      cases f with
      | nil => rfl
      | cons c cs => rfl

theorem pop_frames_some (st : List (List T)) (c : T) (s' : CommandList T)
    (h : pop_frames st = (some c, s')) : st.flatten = c :: drainSeq s' := by
  induction st with
  | nil => simp [pop_frames] at h
  | cons f rest ih =>
    cases f with
    | nil =>
      simp only [pop_frames] at h
      simpa using ih h
    | cons a as =>
      simp only [pop_frames] at h
      cases h
      simp [drainSeq]

theorem pop_frames_none (st : List (List T)) (s' : CommandList T)
    (h : pop_frames st = (none, s')) :
    (∀ f ∈ st, f = []) ∧ s' = ⟨[], []⟩ := by
  induction st with
  | nil =>
    simp only [pop_frames] at h
    cases h
    simp
  | cons f rest ih =>
    cases f with
    | nil =>
      simp only [pop_frames] at h
      have := ih h
      exact ⟨by simpa using this.1, this.2⟩
    | cons a as => simp [pop_frames] at h

theorem pop_frames_all_nil (st : List (List T)) (h : ∀ f ∈ st, f = []) :
    pop_frames st = (none, (⟨[], []⟩ : CommandList T)) := by
  induction st with
  | nil => rfl
  | cons f rest ih =>
    have hf : f = [] := h f (by simp)
    subst hf
    simp only [pop_frames]
    exact ih fun f hf => h f (by simp [hf])

theorem pop_some_drainSeq (s : CommandList T) (c : T) (s' : CommandList T)
    (h : pop_command_and_maybe_frame s = (some c, s')) :
    drainSeq s = c :: drainSeq s' := by
  obtain ⟨cur, st⟩ := s
  cases cur with
  | cons a as =>
    simp only [pop_command_and_maybe_frame] at h
    cases h
    simp [drainSeq]
  | nil =>
    simp only [pop_command_and_maybe_frame] at h
    simpa [drainSeq] using pop_frames_some st c s' h

theorem pop_none_spec (s : CommandList T) (s' : CommandList T)
    (h : pop_command_and_maybe_frame s = (none, s')) :
    s.current_frame = [] ∧ (∀ f ∈ s.stashed_frames, f = []) ∧ s' = ⟨[], []⟩ := by
  obtain ⟨cur, st⟩ := s
  cases cur with
  | cons a as => simp [pop_command_and_maybe_frame] at h
  | nil =>
    simp only [pop_command_and_maybe_frame] at h
    have := pop_frames_none st s' h
    exact ⟨rfl, this.1, this.2⟩

theorem pop_none_drainSeq (s : CommandList T) (s' : CommandList T)
    (h : pop_command_and_maybe_frame s = (none, s')) : drainSeq s = [] := by
  obtain ⟨hc, hst, _⟩ := pop_none_spec s s' h
  simp [drainSeq, hc, List.flatten_eq_nil_iff.mpr hst]

theorem drainFuel_eq_drainSeq :
    ∀ (n : Nat) (s : CommandList T), (drainSeq s).length ≤ n →
      drainFuel n s = drainSeq s := by
  intro n
  induction n with
  | zero =>
    intro s h
    have hnil : drainSeq s = [] := List.eq_nil_of_length_eq_zero (Nat.le_zero.mp h)
    simp [drainFuel, hnil]
  | succ n ih =>
    intro s h
    simp only [drainFuel]
    split
    next c s' hpop =>
      have hd := pop_some_drainSeq s c s' hpop
      have hlen : (drainSeq s').length ≤ n := by
        have := congrArg List.length hd
        simp at this
        omega
      rw [ih s' hlen, hd]
    next s' hpop => rw [pop_none_drainSeq s s' hpop]

theorem drainList_eq_drainSeq (s : CommandList T) : drainList s = drainSeq s :=
  drainFuel_eq_drainSeq (drainSeq s).length s (Nat.le_refl _)

theorem drainSeq_push_immediate (s : CommandList T) (x : T) :
    drainSeq (s.push_immediate_command x) = x :: drainSeq s := rfl

theorem drainSeq_add_current (s : CommandList T) (x : T) :
    drainSeq (s.add_command_to_current_frame x)
      = s.current_frame ++ x :: s.stashed_frames.flatten := by
  simp [drainSeq, add_command_to_current_frame]

theorem push_back_last_concat (x : T) : ∀ (l : List (List T)) (a : List T),
    push_back_last x (l ++ [a]) = l ++ [a ++ [x]] := by
  intro l
  induction l with
  | nil => intro a; rfl
  | cons f rest ih =>
    intro a
    cases rest with
    | nil => rfl
    | cons g rest2 =>
      show f :: push_back_last x ((g :: rest2) ++ [a]) = f :: ((g :: rest2) ++ [a ++ [x]])
      rw [ih a]

theorem flatten_push_back_last (x : T) (st : List (List T)) (hne : st ≠ []) :
    (push_back_last x st).flatten = st.flatten ++ [x] := by
  rcases List.eq_nil_or_concat st with rfl | ⟨l, a, rfl⟩
  · exact absurd rfl hne
  · rw [List.concat_eq_append, push_back_last_concat]
    simp

theorem add_bottom_eq_of_ne_nil (s : CommandList T) (x : T)
    (hne : s.stashed_frames ≠ []) :
    s.add_command_to_bottom_frame x
      = ⟨s.current_frame, push_back_last x s.stashed_frames⟩ := by
  obtain ⟨cur, st⟩ := s
  cases st with
  | nil => exact absurd rfl hne
  | cons f rest => rfl

theorem drainSeq_add_bottom (s : CommandList T) (x : T) :
    drainSeq (s.add_command_to_bottom_frame x) = drainSeq s ++ [x] := by
  obtain ⟨cur, st⟩ := s
  cases st with
  | nil => simp [drainSeq, add_command_to_bottom_frame]
  | cons f rest =>
    rw [add_bottom_eq_of_ne_nil _ _ (by simp)]
    simp only [drainSeq]
    rw [flatten_push_back_last x (f :: rest) (by simp)]
    simp

theorem drainSeq_start_new_frame (s : CommandList T) :
    drainSeq s.start_new_frame = drainSeq s := by
  simp [drainSeq, start_new_frame]

theorem contents_start_new_frame (s : CommandList T) :
    contents s.start_new_frame = contents s := by
  simp [contents, start_new_frame]

theorem contents_maybe_pop_frame (s : CommandList T) :
    contents (maybe_pop_frame s).2 = contents s := by
  obtain ⟨cur, st⟩ := s
  cases hc : cur.isEmpty with
  | false => simp [maybe_pop_frame, hc]
  | true =>
    cases st with
    | nil => simp [maybe_pop_frame, hc]
    | cons f rest =>
      have : cur = [] := by simpa using hc
      subst this
      simp [maybe_pop_frame, contents]

theorem bottomFrame_suffix (s : CommandList T) :
    ∃ pre, drainSeq s = pre ++ bottomFrame s := by
  obtain ⟨cur, st⟩ := s
  rcases List.eq_nil_or_concat st with rfl | ⟨l, a, rfl⟩
  · exact ⟨[], by simp [drainSeq, bottomFrame]⟩
  · refine ⟨cur ++ l.flatten, ?_⟩
    simp [drainSeq, bottomFrame, List.getLast?_concat]

theorem bottomFrame_start_new_frame (s : CommandList T) :
    bottomFrame s.start_new_frame = bottomFrame s := by
  obtain ⟨cur, st⟩ := s
  rcases List.eq_nil_or_concat st with rfl | ⟨l, a, rfl⟩
  · simp [bottomFrame, start_new_frame]
  · simp only [List.concat_eq_append, bottomFrame, start_new_frame]
    rw [← List.cons_append]
    simp only [List.getLast?_concat, Option.getD_some]

theorem bottomFrame_add_bottom (s : CommandList T) (x : T) :
    bottomFrame (s.add_command_to_bottom_frame x) = bottomFrame s ++ [x] := by
  obtain ⟨cur, st⟩ := s
  rcases List.eq_nil_or_concat st with rfl | ⟨l, a, rfl⟩
  · simp [bottomFrame, add_command_to_bottom_frame]
  · simp only [List.concat_eq_append]
    rw [add_bottom_eq_of_ne_nil _ _ (by simp), push_back_last_concat]
    simp [bottomFrame, List.getLast?_concat]

theorem drainSeq_sublist_applyOp (op : SchedOp T) (s : CommandList T) :
    List.Sublist (drainSeq s) (drainSeq (applyOp op s)) := by
  cases op with
  | pushFrontActive x =>
    rw [applyOp, drainSeq_push_immediate]
    exact List.sublist_cons_self x _
  | pushBackActive x =>
    rw [applyOp, drainSeq_add_current]
    simp only [drainSeq]
    exact List.Sublist.append_left (List.sublist_cons_self x _) _
  | pushBackBottom x =>
    rw [applyOp, drainSeq_add_bottom]
    exact List.sublist_append_left _ _
  | startNewFrame =>
    rw [applyOp, drainSeq_start_new_frame]

theorem drainSeq_sublist_applyOps (ops : List (SchedOp T)) (s : CommandList T) :
    List.Sublist (drainSeq s) (drainSeq (applyOps ops s)) := by
  induction ops generalizing s with
  | nil => exact List.Sublist.refl _
  | cons op ops ih =>
    exact (drainSeq_sublist_applyOp op s).trans (ih (applyOp op s))

theorem mem_bottomFrame_applyOp (op : SchedOp T) (s : CommandList T) (x : T)
    (hx : x ∈ bottomFrame s) : x ∈ bottomFrame (applyOp op s) := by
  cases op with
  | pushFrontActive y =>
    obtain ⟨cur, st⟩ := s
    cases st with
    | nil =>
      simp only [bottomFrame, applyOp, push_immediate_command,
        List.getLast?_nil, Option.getD_none] at hx ⊢
      exact List.mem_cons_of_mem y hx
    | cons f rest =>
      simpa [bottomFrame, applyOp, push_immediate_command] using hx
  | pushBackActive y =>
    obtain ⟨cur, st⟩ := s
    cases st with
    | nil =>
      simp only [bottomFrame, applyOp, add_command_to_current_frame,
        List.getLast?_nil, Option.getD_none] at hx ⊢
      exact List.mem_append_left _ hx
    | cons f rest =>
      simpa [bottomFrame, applyOp, add_command_to_current_frame] using hx
  | pushBackBottom y =>
    rw [applyOp, bottomFrame_add_bottom]
    exact List.mem_append_left _ hx
  | startNewFrame =>
    rw [applyOp, bottomFrame_start_new_frame]
    exact hx

theorem mem_bottomFrame_applyOps (ops : List (SchedOp T)) (s : CommandList T)
    (x : T) (hx : x ∈ bottomFrame s) : x ∈ bottomFrame (applyOps ops s) := by
  induction ops generalizing s with
  | nil => exact hx
  | cons op ops ih => exact ih (applyOp op s) (mem_bottomFrame_applyOp op s x hx)

end CommandList

namespace mvc

open CommandList

variable {M V C MC MN VC CN CC P X : Type}

theorem exec_pending_commands_some_empty (impl : MVCImpl M V C MC MN VC CN CC P) :
    ∀ (fuel : Nat) (sys sys' : MVCSystem M V C MC MN VC CN CC),
      exec_pending_commands impl fuel sys = some sys' →
      sys'.command_list = ⟨[], []⟩ := by
  intro fuel
  induction fuel with
  | zero =>
    intro sys sys' h
    simp [exec_pending_commands] at h
  | succ fuel ih =>
    intro sys sys' h
    simp only [exec_pending_commands] at h
    split at h
    next command cl hpop => exact ih _ _ h
    next cl hpop =>
      injection h with h
      subst h
      exact (pop_none_spec _ _ hpop).2.2

end mvc

namespace CommandList

variable {T : Type}

/-- C1 counterexample: the state reached from a fresh `CommandList` by one
`start_new_frame` has an empty active frame and a single empty stashed frame
— every frame contains no messages — yet `is_empty` reports false, because
`is_empty` tests that the stash holds no frames at all rather than that the
stashed frames hold no messages. -/
theorem is_empty_all_frames_empty_counterexample :
    ((CommandList.new Nat).start_new_frame).current_frame = []
    ∧ ((CommandList.new Nat).start_new_frame).stashed_frames = [[]]
    ∧ ((CommandList.new Nat).start_new_frame).is_empty = false :=
  ⟨rfl, rfl, rfl⟩

/-- C1 (amended): the whole-structure emptiness query returns true iff the
active frame is empty and no frame is stashed at all.  Consequently a
non-empty active frame makes it report false, and any non-empty stashed
frame makes it report false; but a state whose frames are all empty while at
least one frame is stashed also reports false. -/
theorem is_empty_iff_no_content_and_no_stash (s : CommandList T) :
    (s.is_empty = true ↔ s.current_frame = [] ∧ s.stashed_frames = [])
    ∧ (s.current_frame ≠ [] → s.is_empty = false)
    ∧ (∀ f, f ∈ s.stashed_frames → f ≠ [] → s.is_empty = false)
    ∧ (s.stashed_frames ≠ [] → s.is_empty = false) := by
  obtain ⟨cur, st⟩ := s
  refine ⟨?_, ?_, ?_, ?_⟩
  · simp [is_empty]
  · intro h
    simp [is_empty, h]
  · intro f hf _
    have hne : st ≠ [] := List.ne_nil_of_mem hf
    simp [is_empty, hne]
  · intro h
    simp [is_empty, h]

/-- C1 witness for the amended theorem, at three concrete states: the empty
structure reports true; a non-empty active frame reports false; a non-empty
stashed frame reports false. -/
theorem is_empty_iff_no_content_and_no_stash_witness :
    (⟨[], []⟩ : CommandList Nat).is_empty = true
    ∧ (⟨[3], []⟩ : CommandList Nat).is_empty = false
    ∧ (⟨[], [[5]]⟩ : CommandList Nat).is_empty = false :=
  ⟨(is_empty_iff_no_content_and_no_stash ⟨[], []⟩).1.mpr ⟨rfl, rfl⟩,
   (is_empty_iff_no_content_and_no_stash ⟨[3], []⟩).2.1 (by simp),
   (is_empty_iff_no_content_and_no_stash ⟨[], [[5]]⟩).2.2.1 [5] (by simp) (by simp)⟩

/-- C2: over any state and any further interleaving of
`push_back_active`/`push_back_bottom`/`push_front_active`/`start_new_frame`
operations, draining via `pop_command_and_maybe_frame` observes a
front-of-active ("now") insertion before every command pending anywhere at
insertion time (in particular before every other command pending at its own
nesting level), and observes a bottom-frame ("later") insertion inside the
final drained segment, the bottom frame — i.e. only after every frame
created after the bottom frame has been fully exhausted. -/
theorem now_later_drain_order (s : CommandList T) (x : T)
    (ops : List (SchedOp T)) :
    List.Sublist (x :: drainList s)
      (drainList (applyOps ops (s.push_immediate_command x)))
    ∧ x ∈ bottomFrame (applyOps ops (s.add_command_to_bottom_frame x))
    ∧ ∃ pre, drainList (applyOps ops (s.add_command_to_bottom_frame x))
        = pre ++ bottomFrame (applyOps ops (s.add_command_to_bottom_frame x)) := by
  refine ⟨?_, ?_, ?_⟩
  · rw [drainList_eq_drainSeq, drainList_eq_drainSeq, ← drainSeq_push_immediate]
    exact drainSeq_sublist_applyOps ops _
  · apply mem_bottomFrame_applyOps
    rw [bottomFrame_add_bottom]
    simp
  · rw [drainList_eq_drainSeq]
    exact bottomFrame_suffix _

/-- C3: `start_new_frame` immediately followed by `maybe_pop_frame` returns
true and restores exactly the prior state: the prior active frame's content
and order come back as the active frame and the stash is unchanged. -/
theorem start_then_restore_roundtrip (s : CommandList T) :
    maybe_pop_frame s.start_new_frame = (true, s) := by
  obtain ⟨cur, st⟩ := s
  rfl

/-- C4: `pop_command_and_maybe_frame` returns the earliest command of the
active frame when one exists; its returned command is always the head of the
drain sequence (active frame first, then stashed frames most recently
stashed first, skipping exhausted frames); and it returns the empty result
exactly when no command remains in any frame. -/
theorem pop_crossing_frames_spec (s : CommandList T) :
    (∀ c cs, s.current_frame = c :: cs →
      pop_command_and_maybe_frame s = (some c, ⟨cs, s.stashed_frames⟩))
    ∧ (pop_command_and_maybe_frame s).1 = (drainSeq s).head?
    ∧ ((pop_command_and_maybe_frame s).1 = none ↔
        s.current_frame = [] ∧ ∀ f ∈ s.stashed_frames, f = []) := by
  have h2 : (pop_command_and_maybe_frame s).1 = (drainSeq s).head? := by
    rcases hp : pop_command_and_maybe_frame s with ⟨r, s'⟩
    cases r with
    | some c => rw [pop_some_drainSeq s c s' hp]; rfl
    | none => rw [pop_none_drainSeq s s' hp]; rfl
  refine ⟨?_, h2, ?_⟩
  · intro c cs hc
    obtain ⟨cur, st⟩ := s
    simp only at hc
    subst hc
    rfl
  · constructor
    · intro h
      rcases hp : pop_command_and_maybe_frame s with ⟨r, s'⟩
      rw [hp] at h
      simp only at h
      subst h
      have := pop_none_spec s s' hp
      exact ⟨this.1, this.2.1⟩
    · intro h
      obtain ⟨cur, st⟩ := s
      simp only at h
      rw [pop_command_and_maybe_frame]
      rw [h.1]
      simp only
      rw [pop_frames_all_nil st h.2]

/-- C4 witness: at a concrete state with a non-empty active frame,
`pop_command_and_maybe_frame` removes and returns the earliest active
command, touching no stashed frame. -/
theorem pop_crossing_frames_spec_witness :
    pop_command_and_maybe_frame (⟨[7, 8], [[9]]⟩ : CommandList Nat)
      = (some 7, ⟨[8], [[9]]⟩) :=
  (pop_crossing_frames_spec ⟨[7, 8], [[9]]⟩).1 7 [8] rfl

/-- C5: `add_command_to_bottom_frame` appends at the back of the earliest
stashed frame when at least one frame is stashed (leaving the active frame
and every other stashed frame untouched), and at the back of the active
frame when no frame is stashed; in both cases the appended command becomes
the last command of the whole drain sequence.  (In our reversed stash order
the earliest stashed frame is the last element, so the stash decomposes as
`init ++ [bottom]` with `init` the frames stashed after the bottom one.) -/
theorem add_bottom_spec (s : CommandList T) (x : T) :
    (s.stashed_frames = [] →
      s.add_command_to_bottom_frame x = ⟨s.current_frame ++ [x], []⟩)
    ∧ (∀ init bottom, s.stashed_frames = init ++ [bottom] →
        s.add_command_to_bottom_frame x
          = ⟨s.current_frame, init ++ [bottom ++ [x]]⟩)
    ∧ drainSeq (s.add_command_to_bottom_frame x) = drainSeq s ++ [x] := by
  refine ⟨?_, ?_, drainSeq_add_bottom s x⟩
  · intro h
    obtain ⟨cur, st⟩ := s
    simp only at h
    subst h
    rfl
  · intro init bottom hst
    rw [add_bottom_eq_of_ne_nil _ _ (by rw [hst]; simp), hst, push_back_last_concat]

/-- C5 witness: with stashed frames `[[1], [2]]` (most recent first, so the
bottom frame is `[2]`), appending 5 to the bottom frame modifies only that
frame. -/
theorem add_bottom_spec_witness :
    add_command_to_bottom_frame (⟨[0], [[1], [2]]⟩ : CommandList Nat) 5
      = ⟨[0], [[1], [2, 5]]⟩ :=
  (add_bottom_spec ⟨[0], [[1], [2]]⟩ 5).2.1 [[1]] [2] rfl

/-- C9: whenever `pop_command_and_maybe_frame` returns the empty result, the
structure it leaves behind is fully normalized — no stashed frame remains
and the active frame is empty — so `is_empty` reports true immediately
afterwards; and whenever the drain loop `exec_pending_commands` terminates
by exhaustion (returns a system rather than running out of fuel), the
resulting system's command list is in that empty state. -/
theorem pop_exhaustion_normalizes :
    (∀ {T : Type} (s s' : CommandList T),
      pop_command_and_maybe_frame s = (none, s') →
      s'.current_frame = [] ∧ s'.stashed_frames = [] ∧ s'.is_empty = true)
    ∧ (∀ {M V C MC MN VC CN CC P : Type}
        (impl : mvc.MVCImpl M V C MC MN VC CN CC P) (fuel : Nat)
        (sys sys' : mvc.MVCSystem M V C MC MN VC CN CC),
        mvc.exec_pending_commands impl fuel sys = some sys' →
        sys'.command_list.is_empty = true) := by
  constructor
  · intro T s s' h
    have := (pop_none_spec s s' h).2.2
    subst this
    exact ⟨rfl, rfl, rfl⟩
  · intro M V C MC MN VC CN CC P impl fuel sys sys' h
    rw [mvc.exec_pending_commands_some_empty impl fuel sys sys' h]
    rfl

/-- C9 witness: popping from the all-empty-frames state `⟨[], [[]]⟩` yields
the empty result and the normalized empty structure, and a one-step drain of
an empty system terminates with an empty command list. -/
theorem pop_exhaustion_normalizes_witness :
    ((⟨[], []⟩ : CommandList Nat).current_frame = []
      ∧ (⟨[], []⟩ : CommandList Nat).stashed_frames = []
      ∧ (⟨[], []⟩ : CommandList Nat).is_empty = true)
    ∧ (mvc.natSystem (CommandList.new _)).command_list.is_empty = true :=
  ⟨pop_exhaustion_normalizes.1 (⟨[], [[]]⟩ : CommandList Nat) ⟨[], []⟩ rfl,
   pop_exhaustion_normalizes.2 mvc.natImpl 1 (mvc.natSystem (CommandList.new _))
     (mvc.natSystem (CommandList.new _)) rfl⟩

/-- C10: `start_new_frame` and `maybe_pop_frame` neither create, discard,
duplicate nor reorder messages: the concatenation of all frames' contents
from the bottom stashed frame up to the active frame is preserved exactly by
either call; only the frame-boundary structure changes. -/
theorem frame_ops_preserve_contents (s : CommandList T) :
    contents s.start_new_frame = contents s
    ∧ contents (maybe_pop_frame s).2 = contents s :=
  ⟨contents_start_new_frame s, contents_maybe_pop_frame s⟩

end CommandList

namespace mvc

open CommandList

variable {M V C MC MN VC CN CC P X : Type}

/-- C6: `process_input` wraps the input as a controller (input-role) command
envelope, schedules it via `add_command_to_bottom_frame`, and then drains:
the drain loop pops one envelope per step via `pop_command_and_maybe_frame`
and dispatches it through `exec_immediate_command`, and it returns a system
(rather than consuming all fuel) only once the queue reports exhaustion, at
which point the command list is empty. -/
theorem process_input_spec (impl : MVCImpl M V C MC MN VC CN CC P) (fuel : Nat)
    (sys : MVCSystem M V C MC MN VC CN CC) (into : X → CC) (input : X) :
    process_input impl fuel sys into input
      = exec_pending_commands impl fuel
          ⟨sys.model, sys.view, sys.controller,
            sys.command_list.add_command_to_bottom_frame
              (MVCMessage.ControllerCommand (into input))⟩
    ∧ (∀ command cl,
        sys.command_list.pop_command_and_maybe_frame = (some command, cl) →
        exec_pending_commands impl (fuel + 1) sys
          = exec_pending_commands impl fuel
              (exec_immediate_command impl
                ⟨sys.model, sys.view, sys.controller, cl⟩ command))
    ∧ (∀ cl, sys.command_list.pop_command_and_maybe_frame = (none, cl) →
        exec_pending_commands impl (fuel + 1) sys
          = some ⟨sys.model, sys.view, sys.controller, cl⟩)
    ∧ (∀ sys', exec_pending_commands impl fuel sys = some sys' →
        sys'.command_list.is_empty = true) := by
  refine ⟨rfl, ?_, ?_, ?_⟩
  · intro command cl hpop
    simp only [exec_pending_commands, hpop]
  · intro cl hpop
    simp only [exec_pending_commands, hpop]
  · intro sys' h
    rw [exec_pending_commands_some_empty impl fuel sys sys' h]
    rfl

/-- C6 witness: with the concrete `Nat` instantiation, one drain step on a
system holding a single stashed controller command dispatches exactly that
command, a drain step on the empty system stops with the normalized empty
queue, and a two-step drain of `process_input` on the fresh system succeeds
and leaves the command list empty. -/
theorem process_input_spec_witness :
    (exec_pending_commands natImpl 3
        (natSystem ⟨[], [[MVCMessage.ControllerCommand 3]]⟩)
      = exec_pending_commands natImpl 2
          (exec_immediate_command natImpl (natSystem ⟨[], []⟩)
            (MVCMessage.ControllerCommand 3)))
    ∧ (exec_pending_commands natImpl 1 (natSystem ⟨[], []⟩)
        = some (natSystem ⟨[], []⟩))
    ∧ (natSystem ⟨[], []⟩).command_list.is_empty = true := by
  refine ⟨?_, ?_, ?_⟩
  · exact (process_input_spec natImpl 2
      (natSystem ⟨[], [[MVCMessage.ControllerCommand 3]]⟩) (fun n => n) 0).2.1
      (MVCMessage.ControllerCommand 3) ⟨[], []⟩ rfl
  · exact (process_input_spec natImpl 0 (natSystem ⟨[], []⟩) (fun n => n) 0).2.2.1
      ⟨[], []⟩ rfl
  · exact (process_input_spec natImpl 2 (natSystem ⟨[], []⟩) (fun n => n) 3).2.2.2
      (natSystem ⟨[], []⟩)
      (by simp [process_input_spec, exec_pending_commands, exec_immediate_command,
        natSystem, natImpl, CommandList.pop_command_and_maybe_frame,
        CommandList.pop_frames, CommandList.add_command_to_bottom_frame,
        CommandList.start_new_frame])

/-- C7: `sync_output` and `sync_output_with_parameter` take `&self`, so they
leave the whole system — model, view, controller and Frame Stack — exactly
unchanged, enqueue nothing and never enter the drain loop; their only effect
is the call to the view's `sync_output_with_parameter` hook, whose result is
returned in the parameter slot. -/
theorem sync_output_readonly (impl : MVCImpl M V C MC MN VC CN CC P)
    (sys : MVCSystem M V C MC MN VC CN CC) (default_param param : P) :
    (sync_output impl default_param sys).1 = sys
    ∧ (sync_output_with_parameter impl sys param).1 = sys
    ∧ (sync_output impl default_param sys).1.command_list = sys.command_list
    ∧ (sync_output_with_parameter impl sys param).1.command_list = sys.command_list
    ∧ (sync_output impl default_param sys).2
        = impl.sync_output_with_parameter sys.view sys.model default_param
    ∧ (sync_output_with_parameter impl sys param).2
        = impl.sync_output_with_parameter sys.view sys.model param :=
  ⟨rfl, rfl, rfl, rfl, rfl, rfl⟩

/-- C8: on a notification-variant envelope, `exec_immediate_command` runs the
corresponding translation hook synchronously; when the hook yields a
command, the effect equals dispatching the resulting role-command envelope,
i.e. exactly one new frame is started (by that command's branch) and the
role's handler runs on the post-`start_new_frame` system; when the hook
yields nothing, the notification is silently absorbed and the system —
including its Frame Stack — is unchanged. -/
theorem notification_translation_spec (impl : MVCImpl M V C MC MN VC CN CC P)
    (sys : MVCSystem M V C MC MN VC CN CC) (mn : MN) (cn : CN) :
    (impl.translate_model_notification mn = none →
      exec_immediate_command impl sys (MVCMessage.ModelUpdateView mn) = sys)
    ∧ (∀ vc, impl.translate_model_notification mn = some vc →
        exec_immediate_command impl sys (MVCMessage.ModelUpdateView mn)
          = exec_immediate_command impl sys (MVCMessage.ViewCommand vc)
        ∧ exec_immediate_command impl sys (MVCMessage.ModelUpdateView mn)
          = impl.view_process_command
              ⟨sys.model, sys.view, sys.controller,
                sys.command_list.start_new_frame⟩ vc)
    ∧ (impl.translate_controller_notification cn = none →
        exec_immediate_command impl sys
          (MVCMessage.ControllerManipulatesModel cn) = sys)
    ∧ (∀ mc, impl.translate_controller_notification cn = some mc →
        exec_immediate_command impl sys (MVCMessage.ControllerManipulatesModel cn)
          = exec_immediate_command impl sys (MVCMessage.ModelCommand mc)
        ∧ exec_immediate_command impl sys (MVCMessage.ControllerManipulatesModel cn)
          = impl.model_process_command
              ⟨sys.model, sys.view, sys.controller,
                sys.command_list.start_new_frame⟩ mc) := by
  refine ⟨?_, ?_, ?_, ?_⟩
  · intro h
    simp only [exec_immediate_command, h]
  · intro vc h
    constructor
    · simp only [exec_immediate_command, h]
    · simp only [exec_immediate_command, h]
  · intro h
    simp only [exec_immediate_command, h]
  · intro mc h
    constructor
    · simp only [exec_immediate_command, h]
    · simp only [exec_immediate_command, h]

/-- C8 witness: with the `Nat` instantiation (whose hooks absorb notification
0 and translate notification 1 to command 1), a model notification 0 is
silently absorbed leaving the system unchanged, and a model notification 1
runs the view handler on the system with one freshly started frame. -/
theorem notification_translation_spec_witness :
    exec_immediate_command natImpl (natSystem (CommandList.new _))
        (MVCMessage.ModelUpdateView 0)
      = natSystem (CommandList.new _)
    ∧ exec_immediate_command natImpl (natSystem (CommandList.new _))
        (MVCMessage.ModelUpdateView 1)
      = natImpl.view_process_command
          ⟨0, 0, 0, (CommandList.new _).start_new_frame⟩ 1 :=
  ⟨(notification_translation_spec natImpl (natSystem (CommandList.new _)) 0 0).1
      rfl,
   ((notification_translation_spec natImpl (natSystem (CommandList.new _)) 1 0).2.1
      1 rfl).2⟩

end mvc
